import Mathlib

/- Verification development for the helm-charts-oci-proxy repository.

The Go sources are embedded shallowly: byte sequences become `List Byte`,
Go strings become Lean `String` (compared by code point, which coincides
with Go's byte-wise comparison on UTF-8 data), fallible operations return
`Option`/`Except`, and a Go slice expression that can panic is modelled
with `Option`.  External libraries (crypto/sha256, encoding/json,
archive/tar + compress/gzip + sigs.k8s.io/yaml, oras.Pack) are modelled as
parameters: every theorem quantifies over an arbitrary deterministic
implementation of them, which is exactly what the Go runtime provides. -/

namespace HelmProxy

/-- A byte, as stored in Go `[]byte` values. -/
abbrev Byte := Fin 256

/-- Model of Go `strings.Split(s, sep)` for a one-character separator:
splits at every occurrence, `""` maps to `[""]`. -/
def goSplitChars (sep : Char) (s : List Char) : List (List Char) :=
  s.foldr
    (fun c acc =>
      if c = sep then [] :: acc
      else
        match acc with
        | [] => [[c]]
        | a :: as => (c :: a) :: as)
    [[]]

/-- Model of `strings.Split` on `String`s. -/
def goSplit (sep : Char) (s : String) : List String :=
  (goSplitChars sep s.data).map String.mk

/-- Model of `strings.HasPrefix`. -/
def goHasPre (s pre : String) : Bool :=
  pre.data.isPrefixOf s.data

/-- Model of Go `strings.TrimPrefix(s, pre)`: drops `pre` once if it is a
prefix, otherwise returns `s` unchanged. -/
def goTrimPre (s pre : String) : String :=
  if goHasPre s pre then String.mk (s.data.drop pre.data.length) else s

/-- Model of `strings.TrimLeft(s, "v")`: removes every leading `v`. -/
def goTrimLeftV (s : String) : String :=
  String.mk (s.data.dropWhile (fun c => c = 'v'))

/-- Does `pat` occur as a contiguous sublist of `l`?  Models Go
`strings.Contains`. -/
def listHasSub (pat : List Char) : List Char → Bool
  | [] => pat.isEmpty
  | c :: rest => (pat.isPrefixOf (c :: rest)) || listHasSub pat rest

/-- Model of `strings.Contains(s, pat)`. -/
def goContains (s pat : String) : Bool :=
  listHasSub pat.data s.data

/-- Digit run → value, used by the `strconv.Atoi` model. -/
def digitsVal (ds : List Char) : Option Nat :=
  if ds.isEmpty then none
  else
    ds.foldl
      (fun acc c =>
        acc.bind fun n => if c.isDigit then some (n * 10 + (c.toNat - '0'.toNat)) else none)
      (some 0)

/-- Model of Go `strconv.Atoi`: optional sign followed by a non-empty digit
run (the int64 range check is not modelled; the handlers never exercise
it). -/
def atoi (s : String) : Option Int :=
  match s.data with
  | [] => none
  | '+' :: ds => (digitsVal ds).map Int.ofNat
  | '-' :: ds => (digitsVal ds).map fun n => -(n : Int)
  | ds => (digitsVal ds).map Int.ofNat

/-- Distribution error returned by the handlers
(internal/errors `RegError`). -/
structure RegError where
  status : Nat
  code : String
  message : String
deriving DecidableEq, Repr

/-- Model of `errors.RegErrInternal`: wraps any unclassified failure. -/
def regErrInternal (msg : String) : RegError :=
  ⟨500, "INTERNAL_SERVER_ERROR", msg⟩

/-- The JSON error body written by `RegError.Write`:
`{"errors":[{"code":C,"message":M}]}` (the embedded code and message are
never strings that need JSON escaping). -/
def regErrorBody (e : RegError) : String :=
  "\x7b\"errors\":[\x7b\"code\":\"" ++ e.code ++ "\",\"message\":\"" ++ e.message ++ "\"\x7d]\x7d"

/-! URL model: the fragment of Go `net/url.Parse` exercised by the
dependency rewriter.  The rewriter only reads `Scheme`, `Host` and `Path`,
and the URLs reaching it carry no userinfo, query, fragment or
percent-escapes, so those features are outside the model. -/

/-- Parsed URL: the three fields `rewriteDependencyURL` reads. -/
structure GoURL where
  scheme : String
  host : String
  path : String
deriving DecidableEq, Repr

/-- Split a character list at its first `:` (prefix, rest-after-colon). -/
def splitAtColon : List Char → Option (List Char × List Char)
  | [] => none
  | c :: cs =>
    if c = ':' then some ([], cs)
    else (splitAtColon cs).map fun p => (c :: p.1, p.2)

/-- Scheme characters allowed after the leading letter (net/url
`getScheme`). -/
def isSchemeChar (c : Char) : Bool :=
  c.isAlpha || c.isDigit || c = '+' || c = '-' || c = '.'

/-- Is `pre` a syntactically valid scheme (letter first, scheme chars
after)? -/
def schemeValid : List Char → Bool
  | [] => false
  | c :: rest => c.isAlpha && rest.all isSchemeChar

/-- net/url `getScheme`: `none` is the "missing protocol scheme" error; a
`some ([], cs)` result means no scheme was recognised and the whole input
remains. -/
def goGetScheme (cs : List Char) : Option (List Char × List Char) :=
  match splitAtColon cs with
  | none => some ([], cs)
  | some (pre, post) =>
    if pre.isEmpty then none
    else if schemeValid pre then some (pre, post) else some ([], cs)

/-- Model of `url.Parse` restricted to the shapes the rewriter meets:
`scheme://host/path` (authority form), `scheme:rest` (opaque form, empty
host and path) and scheme-less inputs (everything is the path). -/
def urlParse (s : String) : Option GoURL :=
  match goGetScheme s.data with
  | none => none
  | some (sch, rest) =>
    let schemeStr := String.mk (sch.map Char.toLower)
    if rest.take 2 = ['/', '/'] then
      let afterSlashes := rest.drop 2
      some ⟨schemeStr, String.mk (afterSlashes.takeWhile (fun c => c ≠ '/')),
        String.mk (afterSlashes.dropWhile (fun c => c ≠ '/'))⟩
    else if ¬ sch.isEmpty then
      -- rootless path after a scheme is treated as opaque: Path stays empty
      some ⟨schemeStr, "", ""⟩
    else
      some ⟨"", "", String.mk rest⟩

/-! internal/manifest/rewrite.go -/

/-- Embeds `shouldRewriteURL` (rewrite.go): which repository URLs are candidates
for rewriting. -/
def shouldRewriteURL (repoURL : String) : Bool :=
  if repoURL = "" then false
  else if goHasPre repoURL "@" || goHasPre repoURL "alias:" then false
  else if goHasPre repoURL "file://" || goHasPre repoURL "file:" then false
  else true

/-- Embeds `getSkipReason` (rewrite.go). -/
def getSkipReason (repoURL : String) : String :=
  if repoURL = "" then "empty URL"
  else if goHasPre repoURL "@" || goHasPre repoURL "alias:" then "Helm repo alias"
  else if goHasPre repoURL "file://" || goHasPre repoURL "file:" then "local file reference"
  else "unknown"

/-- Embeds `rewriteDependencyURL` (rewrite.go): `ok (newURL, wasOCI)` or the error
message. -/
def rewriteDependencyURL (originalURL proxyHost : String) : Except String (String × Bool) :=
  if originalURL = "" then .error "empty URL"
  else
    match urlParse originalURL with
    | none => .error "failed to parse URL"
    | some u =>
      if u.scheme = "https" ∨ u.scheme = "http" ∨ u.scheme = "oci" then
        let wasOCI := u.scheme = "oci"
        let path := goTrimPre u.path "/"
        if path ≠ "" then
          .ok ("oci://" ++ proxyHost ++ "/" ++ u.host ++ "/" ++ path, wasOCI)
        else
          .ok ("oci://" ++ proxyHost ++ "/" ++ u.host, wasOCI)
      else .error ("unsupported scheme: " ++ u.scheme)

/-- A chart dependency (helm.sh chart.Dependency, the fields the rewriter
touches). -/
structure ChartDep where
  name : String
  version : String
  repository : String
deriving DecidableEq, Repr

/-- One line of the rewrite report (`RewrittenDependency`). -/
structure RewrittenDep where
  name : String
  originalURL : String
  newURL : String
  skipped : Bool
  skipReason : String
deriving DecidableEq, Repr

/-- Body of the dependency loop in `rewriteChartDependencies`: the
(possibly updated) dependency, the report line, and whether it modified
the chart. -/
def processDep (proxyHost : String) (dep : ChartDep) : ChartDep × RewrittenDep × Bool :=
  if ¬ shouldRewriteURL dep.repository then
    (dep, ⟨dep.name, dep.repository, "", true, getSkipReason dep.repository⟩, false)
  else
    match rewriteDependencyURL dep.repository proxyHost with
    | .error e => (dep, ⟨dep.name, dep.repository, "", true, e⟩, false)
    | .ok (newURL, _) =>
      ({ dep with repository := newURL }, ⟨dep.name, dep.repository, newURL, false, ""⟩, true)

/-- The dependency loop over the whole list. -/
def rewriteDepsList (proxyHost : String) : List ChartDep → List ChartDep × List RewrittenDep × Bool
  | [] => ([], [], false)
  | d :: ds =>
    let r := processDep proxyHost d
    let rest := rewriteDepsList proxyHost ds
    (r.1 :: rest.1, r.2.1 :: rest.2.1, (r.2.2 || rest.2.2))

/-- Chart metadata (helm.sh chart.Metadata, the fields the rewriter
touches). -/
structure ChartMeta where
  name : String
  version : String
  dependencies : List ChartDep
deriving DecidableEq, Repr

/-- The external tar+gzip+yaml layer used by `rewriteChartDependencies`:
`extract` models `extractChartYAML` (metadata and the in-archive path of
Chart.yaml), `repack` models `replaceChartYAML`.  `β` is the type of
tarball values. -/
structure ChartCodec (β : Type) where
  extract : β → Except String (ChartMeta × String)
  repack : β → String → ChartMeta → Except String β

/-- Result of `rewriteChartDependencies`: bytes, the Modified flag, the
report, and the error (the Go function returns the original bytes next to
a non-nil error). -/
structure RewriteOut (β : Type) where
  bytes : β
  modified : Bool
  deps : List RewrittenDep
  err : Option String
deriving Repr

/-- Embeds `rewriteChartDependencies` (rewrite.go), over an arbitrary tar codec. -/
def rewriteChartDependencies {β : Type} (codec : ChartCodec β) (tarball : β)
    (proxyHost : String) : RewriteOut β :=
  match codec.extract tarball with
  | .error e => ⟨tarball, false, [], some ("failed to extract Chart.yaml: " ++ e)⟩
  | .ok (meta, chartYAMLPath) =>
    if meta.dependencies.isEmpty then ⟨tarball, false, [], none⟩
    else
      let r := rewriteDepsList proxyHost meta.dependencies
      if ¬ r.2.2 then ⟨tarball, false, r.2.1, none⟩
      else
        match codec.repack tarball chartYAMLPath { meta with dependencies := r.1 } with
        | .error e => ⟨tarball, true, r.2.1, some ("failed to replace Chart.yaml: " ++ e)⟩
        | .ok newTarball => ⟨newTarball, true, r.2.1, none⟩

/-! part_005 (prepareChart, getDeterministicCreatedTimestamp) and
internal/manifest/dst.go. -/

/-- A chart index entry (helm.sh repo.ChartVersion, the fields prepareChart
reads).  Timestamps are seconds; `created = none` models a zero
`time.Time` (`Created.IsZero()`). -/
structure ChartVersion where
  name : String
  version : String
  urls : List String
  created : Option Int
deriving DecidableEq, Repr

/-- 2020-01-01T00:00:00Z as seconds since the Unix epoch. -/
def baseTime2020 : Int := 1577836800

/-- UTF-8 bytes of a string (the charts in play are ASCII, where code
points and bytes coincide). -/
def strBytes (s : String) : List Byte :=
  s.data.map fun c => Fin.ofNat c.toNat

/-- The expression `int64(h[0])<<24 | int64(h[1])<<16 | int64(h[2])<<8 | int64(h[3])`:
the offset computed by `getDeterministicCreatedTimestamp` from a sha256
digest (the values stay far below 2^63, so int64 behaves like Nat). -/
def beOffsetOfHash (h : List Byte) : Nat :=
  ((h.getD 0 0).val <<< 24) ||| ((h.getD 1 0).val <<< 16) |||
    ((h.getD 2 0).val <<< 8) ||| (h.getD 3 0).val

/-- Embeds `getDeterministicCreatedTimestamp` (part_005): the index entry's
Created time when non-zero, otherwise 2020-01-01 plus an offset derived
from sha256 of `name@version`.  `sha` is the external crypto/sha256
digest function. -/
def getDeterministicCreatedTimestamp (sha : List Byte → List Byte)
    (chartVer : ChartVersion) : Int :=
  match chartVer.created with
  | some t => t
  | none =>
    baseTime2020 + (beOffsetOfHash (sha (strBytes (chartVer.name ++ "@" ++ chartVer.version))) : Int)

/-- An OCI descriptor (the fields prepareChart populates). -/
structure Descriptor where
  mediaType : String
  dig : String
  size : Int
  annots : List (String × String)
deriving DecidableEq, Repr

/-- Model of `filepath.Base` (path/filepath): last path element after stripping
trailing slashes; `"."` for empty input, `"/"` when everything was a
slash.  `filepath.Clean` on such a base is the identity, so it is not
modelled separately. -/
def goFilepathBase (s : String) : String :=
  let cs := (s.data.reverse.dropWhile (fun c => c = '/')).reverse
  if s.data.isEmpty then "."
  else if cs.isEmpty then "/"
  else String.mk ((cs.reverse.takeWhile (fun c => c ≠ '/')).reverse)

/-- The external deterministic library functions prepareChart delegates
to.  Each field is a pure function, which is what the Go libraries
provide on fixed inputs. -/
structure PackEnv where
  /-- digest.FromBytes: `sha256:<hex>` digest string of a byte sequence -/
  digestFromBytes : List Byte → String
  /-- crypto/sha256.Sum256 -/
  sha : List Byte → List Byte
  /-- encoding/json marshalling of chart.Metadata -/
  jsonMarshalMeta : ChartMeta → List Byte
  /-- loader.LoadArchive ∘ .Metadata: chart metadata from tarball bytes -/
  extractMeta : List Byte → Except String ChartMeta
  /-- oras.Pack: manifest bytes from config descriptor, layer descriptor
  and the manifest-level annotation list -/
  orasPack : Descriptor → Descriptor → List (String × String) → List Byte
  /-- time.Time.Format(time.RFC3339) on a seconds timestamp -/
  rfc3339 : Int → String
  /-- the tar+gzip+yaml layer used by rewriteChartDependencies -/
  rewriteCodec : ChartCodec (List Byte)

/-- Media types (helm registry constants). -/
def configMediaType : String := "application/vnd.cncf.helm.config.v1+json"

/-- Chart layer media type. -/
def chartLayerMediaType : String := "application/vnd.cncf.helm.chart.content.v1.tar+gzip"

/-- OCI image manifest media type. -/
def ociManifestMediaType : String := "application/vnd.oci.image.manifest.v1+json"

/-- A manifest record as stored by the Manifest Store
(internal/manifest `Manifest`). -/
structure ManifestRec where
  contentType : String
  blob : List Byte
  refs : List String
  createdAt : Int
deriving DecidableEq, Repr

/-- What a successful prepareChart run produces for the stores: the
manifest bytes, the served digest, the record (including its refs) and
the blobs pushed before the record became visible. -/
structure PrepOut where
  manifestBytes : List Byte
  digestStr : String
  record : ManifestRec
  blobs : List (String × List Byte)
deriving Repr

/-- The pure core of `prepareChart` (part_005 lines 61-232), from the
resolved index entry and the downloaded tarball bytes to the manifest and
blobs.  `now` is the wall clock read by `InternalDst.getDeterministicTimestamp`
(the dst is built with `NewInternalDst`, so its chartVer is nil and the
record's CreatedAt falls back to time.Now). -/
def prepareChartPure (env : PackEnv) (repoPath : String) (chartVer : ChartVersion)
    (tarball : List Byte) (proxyHost : String) (rewriteEnabled : Bool)
    (now : Int) : Except RegError PrepOut :=
  if chartVer.urls.isEmpty then
    .error ⟨404, "NOT FOUND", "Chart has no URLs"⟩
  else
    let url0 := chartVer.urls.headD ""
    let downloadUrl :=
      match urlParse url0 with
      | some u => if u.scheme ≠ "" then url0 else "https://" ++ repoPath ++ "/" ++ url0
      | none => url0
    let manifestData :=
      if rewriteEnabled ∧ proxyHost ≠ "" then
        let r := rewriteChartDependencies env.rewriteCodec tarball proxyHost
        if r.err = none ∧ r.modified then r.bytes else tarball
      else tarball
    let deterministicTime := getDeterministicCreatedTimestamp env.sha chartVer
    let manifestAnnots := [("org.opencontainers.image.created", env.rfc3339 deterministicTime)]
    let configData :=
      match env.extractMeta manifestData with
      | .ok meta => env.jsonMarshalMeta meta
      | .error _ => strBytes "\x7b\x7d"
    -- desc.Annotations is overwritten with packOpts.ConfigAnnotations (nil)
    -- before packing
    let configDesc : Descriptor :=
      ⟨configMediaType, env.digestFromBytes configData, (configData.length : Int), []⟩
    let name := goFilepathBase downloadUrl
    let layerDesc : Descriptor :=
      ⟨chartLayerMediaType, env.digestFromBytes manifestData, (manifestData.length : Int),
        [("org.opencontainers.image.title", name)]⟩
    let manifestBytes := env.orasPack configDesc layerDesc manifestAnnots
    let rootDigest := env.digestFromBytes manifestBytes
    -- oras.Copy with concurrency 1 pushes the two blobs, then the manifest
    -- (recorded with the refs collected by PreCopy), then tags it
    let refs := [configDesc.dig, layerDesc.dig]
    .ok ⟨manifestBytes, rootDigest,
      ⟨ociManifestMediaType, manifestBytes, refs, now⟩,
      [(configDesc.dig, configData), (layerDesc.dig, manifestData)]⟩

/-! internal/manifest/manifest.go: the HTTP handlers. -/

/-- The repo-segment collection loop of `Handle`/`HandleTags`: walk `e`
from index `i` down to 1 (index 0 is never read), appending each segment
and stopping at a `"v2"` segment. -/
def collectRepoParts (e : List String) : Nat → List String
  | 0 => []
  | i + 1 =>
    match e.get? (i + 1) with
    | none => collectRepoParts e i
    | some s => if s = "v2" then [] else s :: collectRepoParts e i

/-- Repository name computed by `Manifests.Handle` from the request path:
split on `/`, drop the first element, collect the segments before the
last two, then reverse (the `sort.SliceStable` call with the
index-reversing comparator reverses the collected slice for the segment
counts in play) and join with `/`. -/
def handleRepo (path : String) : String :=
  let elem := (goSplit '/' path).drop 1
  String.intercalate "/" (collectRepoParts elem (elem.length - 3)).reverse

/-- The repo segments computed by `Manifests.HandleTags` (which does not
drop the leading empty segment before its loop). -/
def handleTagsRepoParts (path : String) : List String :=
  let elem := goSplit '/' path
  (collectRepoParts elem (elem.length - 3)).reverse

/-- Repository name computed by `Manifests.HandleTags`. -/
def handleTagsRepo (path : String) : String :=
  String.intercalate "/" (handleTagsRepoParts path)

/-- Lexicographic (strict) comparison of character lists by code point.
On UTF-8 data this coincides with Go's byte-wise `<` on strings. -/
def charsLt : List Char → List Char → Bool
  | [], [] => false
  | [], _ :: _ => true
  | _ :: _, [] => false
  | a :: as, b :: bs => if a < b then true else if b < a then false else charsLt as bs

/-- Go string `<`. -/
def strLt (a b : String) : Bool := charsLt a.data b.data

/-- Go string `<=`. -/
def strLe (a b : String) : Bool := ! strLt b a

/-- One insertion step of `sort.Strings` (ascending). -/
def insOne (x : String) : List String → List String
  | [] => [x]
  | y :: ys => if strLt y x then y :: insOne x ys else x :: y :: ys

/-- Model of `sort.Strings`: ascending lexicographic sort. -/
def sortStrings (l : List String) : List String := l.foldr insOne []

/-- The `last` pagination loop of `HandleTags`: jump to the first tag
greater than `last` and keep everything from there; when no tag exceeds
`last` the loop never breaks and the list stays whole. -/
def lastFilter (tags : List String) (last : String) : List String :=
  match tags.findIdx? (fun t => strLt last t) with
  | some i => tags.drop i
  | none => tags

/-- Upstream index model for the tags/catalog handlers: chart name →
version strings, in index order. -/
structure IndexModel where
  entries : List (String × List String)
deriving DecidableEq, Repr

/-- Look up a key in an association list (Go map read). -/
def lookupList {α : Type} (l : List (String × α)) (k : String) : Option α :=
  (l.find? (fun e => e.1 = k)).map Prod.snd

/-- The per-repository map of the Manifest Store, as seen by the tags
handler. -/
abbrev RepoMap := List (String × ManifestRec)

/-- The sorted tag list `HandleTags` computes before pagination: versions
of the chart from the upstream index with leading `v`s stripped, or,
without an index, the locally cached names that do not contain
`sha256:`. -/
def tagsComputed (repoParts : List String) (c : RepoMap) (index : Option IndexModel) :
    List String :=
  let chartName := repoParts.getLastD ""
  let tags :=
    match index with
    | some idx =>
      match lookupList idx.entries chartName with
      | some versions => versions.map goTrimLeftV
      | none => []
    | none => (c.map Prod.fst).filter fun tag => ¬ goContains tag "sha256:"
  sortStrings tags

/-- Outcome of `HandleTags`: a response body, a RegError, or a Go panic
(out-of-range slice). -/
inductive TagsOutcome where
  | ok (name : String) (tags : List String)
  | err (e : RegError)
  | panic
deriving DecidableEq, Repr

/-- Go slice expression `xs[:n]` for an `int` index: defined only for
`0 ≤ n ≤ len(xs)` (the handler only evaluates it with `n < len(xs)`). -/
def goSliceTo {α : Type} (xs : List α) (n : Int) : Option (List α) :=
  if 0 ≤ n ∧ n ≤ (xs.length : Int) then some (xs.take n.toNat) else none

/-- The tag list just before the `n` truncation step: the sorted tags
with the `last` offset applied when the `last` query parameter is
present. -/
def tagsBeforeLimit (repoParts : List String) (c : RepoMap) (index : Option IndexModel)
    (lastQ : String) : List String :=
  let tags := tagsComputed repoParts c index
  if lastQ ≠ "" then lastFilter tags lastQ else tags

/-- The `n` truncation and response step of `HandleTags` (manifest.go
lines 306-331).  Together with `tagsBeforeLimit` this is `HandleTags`
from the point where the repository map `c` and the index lookup result
are in hand (i.e. after the prepare step); `lastQ`/`nQ` are the raw
query parameters (`""` when absent). -/
def nLimitStage (fullRepo : String) (tags : List String) (nQ : String) : TagsOutcome :=
  if nQ ≠ "" then
    match atoi nQ with
    | none => .err ⟨400, "BAD_REQUEST", "parsing n"⟩
    | some n =>
      if n < (tags.length : Int) then
        match goSliceTo tags n with
        | some t => .ok fullRepo t
        | none => .panic
      else .ok fullRepo tags
  else .ok fullRepo tags

/-- The full tags pipeline: computed tags, `last` offset, `n` limit. -/
def handleTags (repoParts : List String) (c : RepoMap) (index : Option IndexModel)
    (lastQ nQ : String) : TagsOutcome :=
  nLimitStage (String.intercalate "/" repoParts) (tagsBeforeLimit repoParts c index lastQ) nQ

/-- Embeds `HandleCatalog` (manifest.go lines 358-426): `n` parsing happens
before anything else; a failed parse is wrapped by `RegErrInternal`.
`elems` are the path segments after the leading slash, `local` the
repository names materialised in the store, `index` the upstream index
for the path prefix. -/
def handleCatalog (elems : List String) (nQ : String) (methodGet : Bool)
    (local_ : List String) (index : Option IndexModel) : Except RegError (List String) :=
  let n? : Except RegError Int :=
    if nQ ≠ "" then
      match atoi nQ with
      | none => .error (regErrInternal "parsing n")
      | some n => .ok n
    else .ok 10000
  match n? with
  | .error e => .error e
  | .ok n =>
    if ¬ methodGet then
      .error ⟨400, "METHOD_UNKNOWN", "We don't understand your method + url"⟩
    else
      let repos :=
        if 2 < elems.length then
          match index with
          | some idx =>
            let repo := String.intercalate "/" (elems.take (elems.length - 2))
            ((idx.entries.map Prod.fst).take n.toNat).map fun r => repo ++ "/" ++ r
          | none => []
        else local_.take n.toNat
      .ok (sortStrings repos)

/-! go-containerregistry v1.NewHash and the in-memory blob handler. -/

/-- Lowercase hex digit? (`strings.TrimLeft(hex, "0123456789abcdef")`
leaves nothing iff every character is one of these). -/
def isHexLower (c : Char) : Bool :=
  c.isDigit || ('a' ≤ c && c ≤ 'f')

/-- Model of go-containerregistry `v1.NewHash`: exactly one `:`, a
supported algorithm (`sha256`), and 64 lowercase hex digits. -/
def newHash (s : String) : Option (String × String) :=
  match goSplit ':' s with
  | [algo, hex] =>
    if hex.data.all isHexLower && (algo = "sha256") && hex.length = 64 then
      some (algo, hex)
    else none
  | _ => none

/-- Model of `v1.Hash.String()`. -/
def hashString (h : String × String) : String :=
  h.1 ++ ":" ++ h.2

/-- The in-memory blob store: digest string → bytes
(registry/blobs/handler/mem). -/
abbrev MemStore := List (String × List Byte)

/-- mem `Handler.Stat`: size on hit, `none` models `blobs.ErrNotFound`. -/
def memStat (store : MemStore) (h : String × String) : Option Nat :=
  (lookupList store (hashString h)).map List.length

/-- mem `Handler.Get`. -/
def memGet (store : MemStore) (h : String × String) : Option (List Byte) :=
  lookupList store (hashString h)

/-- Response of a successful blob request. -/
structure BlobResponse where
  contentLength : Nat
  dockerContentDigest : String
  body : Option (List Byte)
deriving DecidableEq, Repr

/-- Embeds `regErrBlobUnknown` (registry/blobs.go lines 327-331). -/
def regErrBlobUnknown : RegError :=
  ⟨404, "BLOB_UNKNOWN", "Unknown Blob"⟩

/-- The digest-parse error of `Blobs.Handle`. -/
def regErrInvalidDigest : RegError :=
  ⟨400, "NAME_INVALID", "invalid digest"⟩

/-- Embeds `Blobs.Handle` (registry/blobs/blobs.go) for GET/HEAD on the
in-memory (stat-capable, non-redirecting) store. -/
def blobsHandle (method : String) (path : String) (store : MemStore) :
    Except RegError BlobResponse :=
  let elem0 := (goSplit '/' path).drop 1
  let elem := if elem0.getLastD "" = "" then elem0.dropLast else elem0
  if elem.length < 4 then
    .error ⟨400, "NAME_INVALID", "Blobs must be attached to a repo"⟩
  else
    let target := elem.getLastD ""
    if method = "HEAD" then
      match newHash target with
      | none => .error regErrInvalidDigest
      | some h =>
        match memStat store h with
        | none => .error regErrBlobUnknown
        | some size => .ok ⟨size, hashString h, none⟩
    else if method = "GET" then
      match newHash target with
      | none => .error regErrInvalidDigest
      | some h =>
        match memStat store h with
        | none => .error regErrBlobUnknown
        | some size =>
          match memGet store h with
          | none => .error regErrBlobUnknown
          | some bytes => .ok ⟨size, hashString h, some bytes⟩
    else .error ⟨400, "METHOD_UNKNOWN", "We don't understand your method + url"⟩

/-! The Manifest Store with its eviction loop (internal/manifest
NewManifests) and the blob puts performed during chart preparation
(dst.go InternalDst.Push), as a state machine. -/

/-- One named manifest entry of the store. -/
structure StoreEntry where
  repo : String
  name : String
  mrec : ManifestRec
deriving DecidableEq, Repr

/-- Manifest Store (repo → name → record, flattened) plus the digests
present in the Blob Store. -/
structure StoreState where
  manifests : List StoreEntry
  blobs : List String
deriving DecidableEq, Repr

/-- Blob `Put`: map assignment, keyed by digest. -/
def putBlob (d : String) (st : StoreState) : StoreState :=
  { st with blobs := if d ∈ st.blobs then st.blobs else d :: st.blobs }

/-- Embeds `Manifests.Write`: map assignment under (repo, name). -/
def writeManifest (repo name : String) (rec : ManifestRec) (st : StoreState) : StoreState :=
  { st with
    manifests := ⟨repo, name, rec⟩ ::
      st.manifests.filter fun e => ¬ (e.repo = repo ∧ e.name = name) }

/-- Operations that touch the store: a chart preparation (blobs put first,
then the record written under its digest and tagged) and one eviction
tick at wall-clock `now`. -/
inductive StoreOp where
  | prepare (repo digKey tagKey : String) (rec : ManifestRec)
  | evict (now : Int)
deriving DecidableEq, Repr

/-- Is entry `e` expired at `now` for the configured `ttl`?
(`v.CreatedAt.Before(time.Now().Add(-CacheTTL))`). -/
def expiredAt (ttl now : Int) (e : StoreEntry) : Bool :=
  decide (e.mrec.createdAt < now - ttl)

/-- Blob digests the eviction loop deletes for an expired record: each ref
that `v1.NewHash` accepts (malformed refs are skipped). -/
def deletableRefs (rec : ManifestRec) : List String :=
  rec.refs.filter fun r => (newHash r).isSome

/-- Apply one operation.  `prepare` mirrors the oras.Copy into
`InternalDst` (blob pushes precede the manifest write; the digest key is
written by Push and the tag key by Tag).  `evict` mirrors one tick of the
cleanup goroutine: drop every expired entry and delete each of its
(well-formed) refs from the Blob Store, ignoring per-blob errors. -/
def applyOp (ttl : Int) (st : StoreState) : StoreOp → StoreState
  | .prepare repo digKey tagKey rec =>
    let st1 := rec.refs.foldl (fun s d => putBlob d s) st
    let st2 := writeManifest repo digKey rec st1
    writeManifest repo tagKey rec st2
  | .evict now =>
    let expired := st.manifests.filter (expiredAt ttl now)
    { manifests := st.manifests.filter fun e => ¬ expiredAt ttl now e,
      blobs := st.blobs.filter fun d => ¬ expired.any fun e => d ∈ deletableRefs e.mrec }

/-- Run a sequence of operations from the empty store. -/
def runOps (ttl : Int) (ops : List StoreOp) : StoreState :=
  ops.foldl (applyOp ttl) ⟨[], []⟩

/-- The §8 invariant: every digest in the refs of every visible manifest
record is present in the Blob Store. -/
def storeInvB (st : StoreState) : Bool :=
  st.manifests.all fun e => e.mrec.refs.all fun d => st.blobs.contains d

/-! Supporting lemmas. -/

/-- Bitwise-or of a shifted value with a small value is addition. -/
theorem mul_pow_lor_eq_add (k a b : Nat) (hb : b < 2 ^ k) :
    a * 2 ^ k ||| b = a * 2 ^ k + b := by
  induction k generalizing a b with
  | zero =>
    have hb0 : b = 0 := by simpa using hb
    subst hb0
    simp
  | succ k ih =>
    have e1 : a * 2 ^ (k + 1) = 2 * (a * 2 ^ k) := by ring
    have e2 : (2 : Nat) ^ (k + 1) = 2 * 2 ^ k := by ring
    have hb2 : b / 2 < 2 ^ k := by omega
    have hdiv : (a * 2 ^ (k + 1) ||| b) / 2 = a * 2 ^ k + b / 2 := by
      rw [Nat.or_div_two]
      have e3 : a * 2 ^ (k + 1) / 2 = a * 2 ^ k := by omega
      rw [e3, ih _ _ hb2]
    have hX2 : a * 2 ^ (k + 1) % 2 = 0 := by omega
    have hmod : (a * 2 ^ (k + 1) ||| b) % 2 = b % 2 := by
      rcases Nat.mod_two_eq_zero_or_one b with h | h
      · have hne : ¬ (a * 2 ^ (k + 1) ||| b) % 2 = 1 := by
          intro hc
          rcases Nat.or_mod_two_eq_one.mp hc with h1 | h1 <;> omega
        omega
      · rw [h, Nat.or_mod_two_eq_one.mpr (Or.inr h)]
    omega

/-- The or-of-shifts offset is the big-endian number of the first four
bytes. -/
theorem beOffsetOfHash_eq (h : List Byte) :
    beOffsetOfHash h =
      (h.getD 0 0).val * 16777216 + (h.getD 1 0).val * 65536 +
        (h.getD 2 0).val * 256 + (h.getD 3 0).val := by
  have hb1 := (h.getD 1 0).isLt
  have hb2 := (h.getD 2 0).isLt
  have hb3 := (h.getD 3 0).isLt
  have p8 : (2 : Nat) ^ 8 = 256 := by norm_num
  have p16 : (2 : Nat) ^ 16 = 65536 := by norm_num
  have p24 : (2 : Nat) ^ 24 = 16777216 := by norm_num
  unfold beOffsetOfHash
  rw [Nat.shiftLeft_eq, Nat.shiftLeft_eq, Nat.shiftLeft_eq, Nat.or_assoc, Nat.or_assoc]
  rw [mul_pow_lor_eq_add 8 _ _ (by omega)]
  rw [mul_pow_lor_eq_add 16 _ _ (by omega)]
  rw [mul_pow_lor_eq_add 24 _ _ (by omega)]
  omega

/-- C3: `getDeterministicCreatedTimestamp` returns the entry's Created
time when it is non-zero; otherwise it returns 2020-01-01T00:00:00Z plus
the number of seconds given by the big-endian integer formed from the
first 4 bytes of sha256 of `name@version`; and it is a pure function of
the `(name, version, created)` triple. -/
theorem getDeterministicCreatedTimestamp_spec (sha : List Byte → List Byte)
    (cv : ChartVersion) :
    (∀ t, cv.created = some t → getDeterministicCreatedTimestamp sha cv = t) ∧
    (cv.created = none →
      getDeterministicCreatedTimestamp sha cv =
        baseTime2020 +
          (((sha (strBytes (cv.name ++ "@" ++ cv.version))).getD 0 0).val * 16777216 +
            ((sha (strBytes (cv.name ++ "@" ++ cv.version))).getD 1 0).val * 65536 +
            ((sha (strBytes (cv.name ++ "@" ++ cv.version))).getD 2 0).val * 256 +
            ((sha (strBytes (cv.name ++ "@" ++ cv.version))).getD 3 0).val : Nat)) ∧
    (∀ cv2 : ChartVersion, cv.name = cv2.name → cv.version = cv2.version →
      cv.created = cv2.created →
      getDeterministicCreatedTimestamp sha cv = getDeterministicCreatedTimestamp sha cv2) := by
  refine ⟨fun t ht => ?_, fun hn => ?_, fun cv2 h1 h2 h3 => ?_⟩
  · simp [getDeterministicCreatedTimestamp, ht]
  · simp [getDeterministicCreatedTimestamp, hn, beOffsetOfHash_eq]
  · simp [getDeterministicCreatedTimestamp, h1, h2, h3]

/-- Witness for C3 at concrete inputs. -/
theorem getDeterministicCreatedTimestamp_spec_witness :
    getDeterministicCreatedTimestamp (fun _ => []) ⟨"cert-manager", "1.13.3", [], some 1702305475⟩ =
      1702305475 ∧
    getDeterministicCreatedTimestamp (fun _ => List.replicate 32 2) ⟨"a", "1.0.0", [], none⟩ =
      baseTime2020 + (2 * 16777216 + 2 * 65536 + 2 * 256 + 2 : Nat) := by
  constructor
  · exact (getDeterministicCreatedTimestamp_spec (fun _ => []) _).1 _ rfl
  · have h := (getDeterministicCreatedTimestamp_spec (fun _ => List.replicate 32 2)
      ⟨"a", "1.0.0", [], none⟩).2.1 rfl
    rw [h]
    norm_num

/-- C2: for any behaviour of the external deterministic libraries, two
runs of the chart-preparation pipeline on the same upstream index entry,
tarball bytes, proxy host and rewrite flag produce the same manifest
bytes and the same served `Docker-Content-Digest`, even at different
wall-clock instants (the clock only enters the record's CreatedAt, which
drives eviction, not the bytes). -/
theorem prepareChart_reproducible (env : PackEnv) (repoPath : String)
    (chartVer : ChartVersion) (tarball : List Byte) (proxyHost : String)
    (rewriteEnabled : Bool) (now₁ now₂ : Int) :
    (prepareChartPure env repoPath chartVer tarball proxyHost rewriteEnabled now₁).map
        (fun o => (o.manifestBytes, o.digestStr)) =
      (prepareChartPure env repoPath chartVer tarball proxyHost rewriteEnabled now₂).map
        (fun o => (o.manifestBytes, o.digestStr)) := by
  unfold prepareChartPure
  split <;> rfl

/-- Unfolding `goHasPre` to list-prefix. -/
theorem goHasPre_iff {s pre : String} : goHasPre s pre = true ↔ pre.data <+: s.data := by
  simp [goHasPre]

/-- A string whose data starts with a character is not empty. -/
theorem str_ne_empty_of_data {s : String} {c : Char} {l : List Char}
    (h : s.data = c :: l) : s ≠ "" := by
  intro he
  subst he
  simp at h

/-- C5: a dependency URL that parses with scheme http, https or oci, host
`host` and path `p` is rewritten to `oci://<proxyHost>/<host>/<P>` (or
`oci://<proxyHost>/<host>` when the slash-stripped path `P` is empty);
empty, alias and file URLs are skipped with the reasons `empty URL`,
`Helm repo alias` and `local file reference`; any other scheme is skipped
with the parse error as the reason. -/
theorem rewriteDependencyURL_cases (u H s host p : String) (dep : ChartDep) :
    (urlParse u = some ⟨s, host, p⟩ → (s = "http" ∨ s = "https" ∨ s = "oci") →
      rewriteDependencyURL u H =
        .ok
          (if goTrimPre p "/" ≠ "" then
            "oci://" ++ H ++ "/" ++ host ++ "/" ++ goTrimPre p "/"
          else "oci://" ++ H ++ "/" ++ host, decide (s = "oci"))) ∧
    (dep.repository = "" →
      (processDep H dep).2.1 = ⟨dep.name, "", "", true, "empty URL"⟩) ∧
    (goHasPre dep.repository "@" = true ∨ goHasPre dep.repository "alias:" = true →
      (processDep H dep).2.1 = ⟨dep.name, dep.repository, "", true, "Helm repo alias"⟩) ∧
    (goHasPre dep.repository "file://" = true ∨ goHasPre dep.repository "file:" = true →
      (processDep H dep).2.1 = ⟨dep.name, dep.repository, "", true, "local file reference"⟩) ∧
    (urlParse dep.repository = some ⟨s, host, p⟩ →
      ¬ (s = "http" ∨ s = "https" ∨ s = "oci") →
      shouldRewriteURL dep.repository = true →
      (processDep H dep).2.1 =
        ⟨dep.name, dep.repository, "", true, "unsupported scheme: " ++ s⟩) := by
  refine ⟨fun hparse hs => ?_, fun hempty => ?_, fun halias => ?_, fun hfile => ?_,
    fun hparse hns hsr => ?_⟩
  · have hu : u ≠ "" := by
      rintro rfl
      rw [show urlParse "" = some ⟨"", "", ""⟩ from rfl] at hparse
      simp only [Option.some.injEq, GoURL.mk.injEq] at hparse
      obtain ⟨hs0, -, -⟩ := hparse
      rcases hs with h | h | h <;> simp [← hs0] at h
    rw [rewriteDependencyURL, if_neg hu, hparse]
    have hcond : (s = "https" ∨ s = "http" ∨ s = "oci") := by tauto
    simp only [hcond, if_true]
    split <;> simp_all
  · simp [processDep, shouldRewriteURL, getSkipReason, hempty]
  · have hne : dep.repository ≠ "" := by
      rintro he
      rw [he] at halias
      rcases halias with h | h <;> simp [goHasPre, List.isPrefixOf] at h
    rcases halias with h | h <;>
      simp [processDep, shouldRewriteURL, getSkipReason, hne, h]
  · have hf : ∃ rest, dep.repository.data = 'f' :: rest := by
      rcases hfile with h | h <;>
        · obtain ⟨t, ht⟩ := goHasPre_iff.mp h
          exact ⟨_, ht.symm⟩
    obtain ⟨rest, hdata⟩ := hf
    have hne : dep.repository ≠ "" := str_ne_empty_of_data hdata
    have hat : goHasPre dep.repository "@" = false := by
      rw [Bool.eq_false_iff]
      intro h
      have := goHasPre_iff.mp h
      rw [hdata] at this
      simp at this
    have hal : goHasPre dep.repository "alias:" = false := by
      rw [Bool.eq_false_iff]
      intro h
      have := goHasPre_iff.mp h
      rw [hdata] at this
      simp at this
    rcases hfile with h | h <;>
      simp [processDep, shouldRewriteURL, getSkipReason, hne, hat, hal, h]
  · have hne : dep.repository ≠ "" := by
      rintro he
      rw [he] at hsr
      simp [shouldRewriteURL] at hsr
    simp only [processDep, hsr, Bool.not_true, if_neg]
    rw [rewriteDependencyURL, if_neg hne, hparse]
    have hc : ¬ (s = "https" ∨ s = "http" ∨ s = "oci") := by tauto
    simp [hc]

/-- Witness for C5 at concrete inputs. -/
theorem rewriteDependencyURL_cases_witness :
    rewriteDependencyURL "https://charts.bitnami.com/bitnami" "chartproxy.example.com" =
      .ok ("oci://chartproxy.example.com/charts.bitnami.com/bitnami", false) ∧
    (processDep "p.io" ⟨"d", "1", "@bitnami"⟩).2.1 = ⟨"d", "@bitnami", "", true, "Helm repo alias"⟩ ∧
    (processDep "p.io" ⟨"d", "1", "file://../local"⟩).2.1 =
      ⟨"d", "file://../local", "", true, "local file reference"⟩ ∧
    (processDep "p.io" ⟨"d", "1", ""⟩).2.1 = ⟨"d", "", "", true, "empty URL"⟩ ∧
    (processDep "p.io" ⟨"d", "1", "ftp://charts.example.com"⟩).2.1 =
      ⟨"d", "ftp://charts.example.com", "", true, "unsupported scheme: ftp"⟩ := by
  refine ⟨?_, ?_, ?_, ?_, ?_⟩
  · have h := (rewriteDependencyURL_cases "https://charts.bitnami.com/bitnami"
      "chartproxy.example.com" "https" "charts.bitnami.com" "/bitnami"
      ⟨"d", "1", ""⟩).1 (by decide) (by decide)
    rw [h]
    simp only [Except.ok.injEq]
    decide
  · exact (rewriteDependencyURL_cases "" "p.io" "" "" "" ⟨"d", "1", "@bitnami"⟩).2.2.1
      (by decide)
  · exact (rewriteDependencyURL_cases "" "p.io" "" "" "" ⟨"d", "1", "file://../local"⟩).2.2.2.1
      (by decide)
  · exact (rewriteDependencyURL_cases "" "p.io" "" "" "" ⟨"d", "1", ""⟩).2.1 rfl
  · exact (rewriteDependencyURL_cases "" "p.io" "ftp" "charts.example.com" ""
      ⟨"d", "1", "ftp://charts.example.com"⟩).2.2.2.2 (by decide) (by decide) (by decide)

/-- A degenerate but law-abiding tar codec whose tarballs are their chart
metadata; it stands in for the gzip/tar/yaml layer in concrete runs of
the rewriter. -/
def c4Codec : ChartCodec ChartMeta :=
  ⟨fun m => .ok (m, "c/Chart.yaml"), fun _ _ m => .ok m⟩

/-- A one-dependency chart. -/
def c4Meta : ChartMeta := ⟨"c", "1.0.0", [⟨"redis", "17.0.0", "https://h.io/p"⟩]⟩

/-- C4 fails on the code: rewriting an already-rewritten tarball rewrites
the oci:// dependency again (stacking the proxy host), so the second
output differs from the first. -/
theorem rewrite_idempotent_counterexample :
    (rewriteChartDependencies c4Codec
        (rewriteChartDependencies c4Codec c4Meta "p.io").bytes "p.io").bytes ≠
      (rewriteChartDependencies c4Codec c4Meta "p.io").bytes := by
  decide

/-- Computing `takeWhile` against slashes over a slash-free list followed by a slash. -/
theorem takeWhile_ne_slash_append (l1 l2 : List Char) (h : '/' ∉ l1) :
    (l1 ++ '/' :: l2).takeWhile (fun c => c ≠ '/') = l1 := by
  induction l1 with
  | nil => simp [List.takeWhile]
  | cons c cs ih =>
    simp only [List.mem_cons, not_or] at h
    obtain ⟨h1, h2⟩ := h
    have hc : ¬ c = '/' := by
      intro hcc
      exact h1 hcc.symm
    rw [List.cons_append,
      List.takeWhile_cons_of_pos (p := fun c => decide (c ≠ '/')) (a := c)
        (l := cs ++ '/' :: l2) (by simp [hc]),
      ih h2]

/-- Computing `dropWhile` against slashes over a slash-free list followed by a slash. -/
theorem dropWhile_ne_slash_append (l1 l2 : List Char) (h : '/' ∉ l1) :
    (l1 ++ '/' :: l2).dropWhile (fun c => c ≠ '/') = '/' :: l2 := by
  induction l1 with
  | nil => simp [List.dropWhile]
  | cons c cs ih =>
    simp only [List.mem_cons, not_or] at h
    obtain ⟨h1, h2⟩ := h
    have hc : ¬ c = '/' := by
      intro hcc
      exact h1 hcc.symm
    rw [List.cons_append,
      List.dropWhile_cons_of_pos (p := fun c => decide (c ≠ '/')) (a := c)
        (l := cs ++ '/' :: l2) (by simp [hc]),
      ih h2]

/-- Parsing a rewritten dependency URL `oci://H/X` recovers scheme `oci`,
host `H` and path `/X` whenever `H` is slash-free. -/
theorem urlParse_oci (H X : String) (hH : '/' ∉ H.data) :
    urlParse ("oci://" ++ H ++ "/" ++ X) = some ⟨"oci", H, "/" ++ X⟩ := by
  have hdata : ("oci://" ++ H ++ "/" ++ X).data
      = 'o' :: 'c' :: 'i' :: ':' :: '/' :: '/' :: (H.data ++ '/' :: X.data) := by
    simp [String.data_append]
  unfold urlParse
  rw [hdata]
  have hsch : goGetScheme ('o' :: 'c' :: 'i' :: ':' :: '/' :: '/' :: (H.data ++ '/' :: X.data))
      = some (['o', 'c', 'i'], '/' :: '/' :: (H.data ++ '/' :: X.data)) := rfl
  rw [hsch]
  simp only [List.take, List.drop, if_true]
  rw [takeWhile_ne_slash_append _ _ hH, dropWhile_ne_slash_append _ _ hH]
  have h3 : String.mk ('/' :: X.data) = "/" ++ X := by
    have hd : ("/" ++ X).data = '/' :: X.data := by simp [String.data_append]
    exact congrArg String.mk hd.symm
  rw [h3]
  rfl

/-- Stripping the slash: `TrimPrefix("/" ++ X, "/") = X`. -/
theorem goTrimPre_slash (X : String) : goTrimPre ("/" ++ X) "/" = X := by
  have hdata : ("/" ++ X).data = '/' :: X.data := by simp [String.data_append]
  unfold goTrimPre goHasPre
  rw [hdata]
  simp [List.isPrefixOf]

/-- C4, amended: rewriting is not idempotent.  A second pass over a
rewritten dependency URL `oci://H/X` produces `oci://H/H/X`, which
differs from the first output; idempotence holds exactly when the first
pass modified nothing, in which case the original tarball is returned and
a second rewrite gives the identical result. -/
theorem rewrite_second_pass (H X : String) (hH : '/' ∉ H.data) (hX : X ≠ "") :
    (rewriteDependencyURL ("oci://" ++ H ++ "/" ++ X) H =
      .ok ("oci://" ++ H ++ "/" ++ H ++ "/" ++ X, true)) ∧
    ("oci://" ++ H ++ "/" ++ H ++ "/" ++ X ≠ "oci://" ++ H ++ "/" ++ X) ∧
    (∀ {β : Type} (codec : ChartCodec β) (T : β),
      (rewriteChartDependencies codec T H).modified = false →
      rewriteChartDependencies codec (rewriteChartDependencies codec T H).bytes H =
        rewriteChartDependencies codec T H) := by
  refine ⟨?_, ?_, ?_⟩
  · have hne : ("oci://" ++ H ++ "/" ++ X) ≠ "" :=
      str_ne_empty_of_data (c := 'o')
        (l := 'c' :: 'i' :: ':' :: '/' :: '/' :: (H.data ++ '/' :: X.data))
        (by simp [String.data_append])
    rw [rewriteDependencyURL, if_neg hne, urlParse_oci H X hH]
    dsimp only
    rw [if_pos (Or.inr (Or.inr rfl))]
    rw [goTrimPre_slash]
    simp [hX]
  · intro heq
    have hlen := congrArg String.length heq
    have h6 : "oci://".length = 6 := rfl
    have hs1 : "/".length = 1 := rfl
    simp only [String.length_append, h6, hs1] at hlen
    omega
  · intro β codec T hmod
    have hbytes : (rewriteChartDependencies codec T H).bytes = T := by
      cases hext : codec.extract T with
      | error e => simp [rewriteChartDependencies, hext]
      | ok mp =>
        obtain ⟨meta, pth⟩ := mp
        by_cases hd : meta.dependencies.isEmpty
        · simp [rewriteChartDependencies, hext, hd]
        · by_cases hm : (rewriteDepsList H meta.dependencies).2.2
          · exfalso
            cases hrep : codec.repack T pth
                { meta with dependencies := (rewriteDepsList H meta.dependencies).1 } with
            | error e => simp [rewriteChartDependencies, hext, hd, hm, hrep] at hmod
            | ok nt => simp [rewriteChartDependencies, hext, hd, hm, hrep] at hmod
          · simp [rewriteChartDependencies, hext, hd, hm]
    rw [hbytes]

/-- Witness for the amended C4 at concrete inputs. -/
theorem rewrite_second_pass_witness :
    rewriteDependencyURL "oci://p.io/h.io/c" "p.io" = .ok ("oci://p.io/p.io/h.io/c", true) ∧
    rewriteChartDependencies c4Codec
        (rewriteChartDependencies c4Codec ⟨"c", "1", []⟩ "p.io").bytes "p.io" =
      rewriteChartDependencies c4Codec ⟨"c", "1", []⟩ "p.io" := by
  constructor
  · have h := (rewrite_second_pass "p.io" "h.io/c" (by decide) (by decide)).1
    have e : "oci://p.io/h.io/c" = "oci://" ++ "p.io" ++ "/" ++ "h.io/c" := rfl
    rw [e, h]
    rfl
  · exact (rewrite_second_pass "p.io" "h.io/c" (by decide) (by decide)).2.2 c4Codec _ (by decide)

/-- The collect-then-reverse loop applied just after a `"v2"` head
recovers the segments between `v2` and the trailing junk, reversed. -/
theorem collect_after_v2 (ps : List String) : ∀ (junk : List String), "v2" ∉ ps →
    collectRepoParts ("v2" :: (ps ++ junk)) ps.length = ps.reverse := by
  induction ps using List.reverseRecOn with
  | nil => intro junk h; rfl
  | append_singleton ps p ih =>
    intro junk h
    have hp : ¬ p = "v2" := by simp at h; tauto
    have hps : "v2" ∉ ps := by simp at h; tauto
    have hlen : (ps ++ [p]).length = ps.length + 1 := by simp
    rw [hlen, collectRepoParts]
    have hget : ("v2" :: ((ps ++ [p]) ++ junk)).get? (ps.length + 1) = some p := by
      show ((ps ++ [p]) ++ junk).get? ps.length = some p
      rw [List.append_assoc, List.get?_append_right (le_refl ps.length)]
      simp
    rw [hget]
    simp only [hp, if_false]
    have he : ("v2" :: ((ps ++ [p]) ++ junk)) = ("v2" :: (ps ++ ([p] ++ junk))) := by
      rw [List.append_assoc]
    rw [he, ih ([p] ++ junk) hps]
    simp

/-- Variant for `HandleTags`, whose segment list keeps the leading empty
segment, so the loop meets `"v2"` at index 1 and stops there. -/
theorem collect_after_v2_shifted (ps : List String) : ∀ (x : String) (junk : List String),
    "v2" ∉ ps →
    collectRepoParts (x :: "v2" :: (ps ++ junk)) (ps.length + 1) = ps.reverse := by
  induction ps using List.reverseRecOn with
  | nil => intro x junk h; rfl
  | append_singleton ps p ih =>
    intro x junk h
    have hp : ¬ p = "v2" := by simp at h; tauto
    have hps : "v2" ∉ ps := by simp at h; tauto
    have hlen : (ps ++ [p]).length = ps.length + 1 := by simp
    rw [hlen, collectRepoParts]
    have hget : (x :: "v2" :: ((ps ++ [p]) ++ junk)).get? (ps.length + 1 + 1) = some p := by
      show ((ps ++ [p]) ++ junk).get? ps.length = some p
      rw [List.append_assoc, List.get?_append_right (le_refl ps.length)]
      simp
    rw [hget]
    simp only [hp, if_false]
    have he : (x :: "v2" :: ((ps ++ [p]) ++ junk)) = (x :: "v2" :: (ps ++ ([p] ++ junk))) := by
      rw [List.append_assoc]
    rw [he, ih x ([p] ++ junk) hps]
    simp

/-- C7: for request paths of the Distribution v2 shape, both the manifest
handler and the tags handler pass the path segments strictly between the
`v2` segment and the operation token, joined by `/` in their original
left-to-right order, to the inner handlers. -/
theorem repoName_between_v2_and_op (p q t : String) (parts parts' : List String)
    (hp : goSplit '/' p = "" :: "v2" :: (parts ++ ["manifests", t]))
    (hv : "v2" ∉ parts)
    (hq : goSplit '/' q = "" :: "v2" :: (parts' ++ ["tags", "list"]))
    (hv2 : "v2" ∉ parts') :
    handleRepo p = String.intercalate "/" parts ∧
    handleTagsRepo q = String.intercalate "/" parts' := by
  constructor
  · unfold handleRepo
    rw [hp]
    simp only [List.drop_succ_cons, List.drop_zero]
    have hlen : ("v2" :: (parts ++ ["manifests", t])).length - 3 = parts.length := by
      simp
    rw [hlen, collect_after_v2 parts ["manifests", t] hv, List.reverse_reverse]
  · unfold handleTagsRepo handleTagsRepoParts
    rw [hq]
    dsimp only
    have hlen : ("" :: "v2" :: (parts' ++ ["tags", "list"])).length - 3 = parts'.length + 1 := by
      simp
    rw [hlen, collect_after_v2_shifted parts' "" ["tags", "list"] hv2, List.reverse_reverse]

/-- Witness for C7 at a concrete multi-segment path. -/
theorem repoName_between_v2_and_op_witness :
    handleRepo "/v2/charts.bitnami.com/bitnami/airflow/manifests/t" =
      "charts.bitnami.com/bitnami/airflow" ∧
    handleTagsRepo "/v2/charts.bitnami.com/bitnami/airflow/tags/list" =
      "charts.bitnami.com/bitnami/airflow" := by
  have h := repoName_between_v2_and_op
    "/v2/charts.bitnami.com/bitnami/airflow/manifests/t"
    "/v2/charts.bitnami.com/bitnami/airflow/tags/list" "t"
    ["charts.bitnami.com", "bitnami", "airflow"] ["charts.bitnami.com", "bitnami", "airflow"]
    (by decide) (by decide) (by decide) (by decide)
  exact ⟨h.1.trans (by decide), h.2.trans (by decide)⟩

/-! Order lemmas for the code-point lexicographic comparison. -/

/-- Irreflexivity. -/
theorem charsLt_irrefl (l : List Char) : charsLt l l = false := by
  induction l with
  | nil => rfl
  | cons a as ih => simp [charsLt, ih]

/-- Transitivity. -/
theorem charsLt_trans : ∀ {a b c : List Char},
    charsLt a b = true → charsLt b c = true → charsLt a c = true
  | [], b, c, h1, h2 => by
    cases c with
    | nil => cases b <;> simp [charsLt] at h1 h2
    | cons z zs => rfl
  | x :: xs, b, c, h1, h2 => by
    cases b with
    | nil => simp [charsLt] at h1
    | cons y ys =>
      cases c with
      | nil => simp [charsLt] at h2
      | cons z zs =>
        simp only [charsLt] at h1 h2 ⊢
        by_cases hxy : x < y
        · by_cases hyz : y < z
          · simp [lt_trans hxy hyz]
          · by_cases hzy : z < y
            · simp [hyz, hzy] at h2
            · have hyz2 : y = z := le_antisymm (not_lt.mp hzy) (not_lt.mp hyz)
              subst hyz2
              simp [hxy]
        · by_cases hyx : y < x
          · simp [hxy, hyx] at h1
          · have hxy2 : x = y := le_antisymm (not_lt.mp hyx) (not_lt.mp hxy)
            subst hxy2
            rw [if_neg (lt_irrefl x), if_neg (lt_irrefl x)] at h1
            by_cases hyz : x < z
            · simp [hyz]
            · by_cases hzy : z < x
              · simp [hyz, hzy] at h2
              · have hxz : x = z := le_antisymm (not_lt.mp hzy) (not_lt.mp hyz)
                subst hxz
                rw [if_neg (lt_irrefl x), if_neg (lt_irrefl x)] at h2 ⊢
                exact charsLt_trans h1 h2

/-- Trichotomy. -/
theorem charsLt_trichotomy : ∀ (a b : List Char),
    charsLt a b = true ∨ a = b ∨ charsLt b a = true
  | [], [] => Or.inr (Or.inl rfl)
  | [], _ :: _ => Or.inl rfl
  | _ :: _, [] => Or.inr (Or.inr rfl)
  | x :: xs, y :: ys => by
    rcases lt_trichotomy x y with h | h | h
    · left
      simp [charsLt, h]
    · subst h
      have hx : ¬ x < x := lt_irrefl x
      rcases charsLt_trichotomy xs ys with h2 | h2 | h2
      · left
        simp [charsLt, hx, h2]
      · right; left
        rw [h2]
      · right; right
        simp [charsLt, hx, h2]
    · right; right
      simp [charsLt, h]

/-- Asymmetry. -/
theorem charsLt_asymm {a b : List Char} (h : charsLt a b = true) : charsLt b a = false := by
  by_contra hc
  have hba : charsLt b a = true := by
    revert hc
    cases charsLt b a <;> simp
  have haa := charsLt_trans h hba
  rw [charsLt_irrefl] at haa
  cases haa

/-- String-level trichotomy. -/
theorem strLt_trichotomy (a b : String) : strLt a b = true ∨ a = b ∨ strLt b a = true := by
  rcases charsLt_trichotomy a.data b.data with h | h | h
  · exact Or.inl h
  · refine Or.inr (Or.inl ?_)
    cases a
    cases b
    exact congrArg String.mk h
  · exact Or.inr (Or.inr h)

/-- Transitivity of `strLe`. -/
theorem strLe_trans {a b c : String} (h1 : strLe a b = true) (h2 : strLe b c = true) :
    strLe a c = true := by
  unfold strLe at *
  rw [Bool.not_eq_true'] at h1 h2 ⊢
  by_contra hc
  have hca : strLt c a = true := by
    revert hc
    cases strLt c a <;> simp
  rcases strLt_trichotomy c b with h | h | h
  · rw [h] at h2
    cases h2
  · subst h
    rw [hca] at h1
    cases h1
  · have hba := charsLt_trans h hca
    rw [strLt, hba] at h1
    cases h1

/-- Composition of `strLt` with `strLe` on the right. -/
theorem strLt_of_strLt_of_strLe {x a t : String} (h1 : strLt x a = true)
    (h2 : strLe a t = true) : strLt x t = true := by
  rw [strLe, Bool.not_eq_true'] at h2
  rcases strLt_trichotomy x t with h | h | h
  · exact h
  · subst h
    rw [h1] at h2
    cases h2
  · have hta := charsLt_trans h h1
    rw [strLt, hta] at h2
    cases h2

/-- Membership through one insertion step. -/
theorem mem_insOne {x z : String} : ∀ {l : List String}, z ∈ insOne x l ↔ z = x ∨ z ∈ l
  | [] => by simp [insOne]
  | y :: ys => by
    unfold insOne
    by_cases h : strLt y x
    · rw [if_pos h]
      simp only [List.mem_cons, mem_insOne (l := ys)]
      tauto
    · rw [if_neg h]
      simp only [List.mem_cons]

/-- One insertion step preserves sortedness. -/
theorem pairwise_insOne {x : String} : ∀ {l : List String},
    List.Pairwise (fun a b => strLe a b = true) l →
    List.Pairwise (fun a b => strLe a b = true) (insOne x l)
  | [], _ => by simp [insOne]
  | y :: ys, hp => by
    rw [List.pairwise_cons] at hp
    obtain ⟨hy, hys⟩ := hp
    unfold insOne
    by_cases h : strLt y x
    · rw [if_pos h, List.pairwise_cons]
      refine ⟨?_, pairwise_insOne hys⟩
      intro z hz
      rcases mem_insOne.mp hz with rfl | hzys
      · unfold strLe strLt
        rw [charsLt_asymm h]
        rfl
      · exact hy z hzys
    · have hf : strLt y x = false := by
        revert h
        cases strLt y x <;> simp
      have hxy : strLe x y = true := by
        unfold strLe
        rw [hf]
        rfl
      rw [if_neg h, List.pairwise_cons]
      refine ⟨?_, List.pairwise_cons.mpr ⟨hy, hys⟩⟩
      intro z hz
      rcases List.mem_cons.mp hz with rfl | hzys
      · exact hxy
      · exact strLe_trans hxy (hy z hzys)

/-- Sorting with `sortStrings` yields an ascending list. -/
theorem sortStrings_pairwise (l : List String) :
    List.Pairwise (fun a b => strLe a b = true) (sortStrings l) := by
  unfold sortStrings
  induction l with
  | nil => simp
  | cons x xs ih => exact pairwise_insOne ih

/-- When some tag exceeds `last`, the `last` loop keeps a suffix whose
members all exceed `last`. -/
theorem lastFilter_all_gt {tags : List String}
    (hs : List.Pairwise (fun a b => strLe a b = true) tags)
    {last : String} (hex : ∃ x ∈ tags, strLt last x = true) :
    ∀ t ∈ lastFilter tags last, strLt last t = true := by
  intro t ht
  unfold lastFilter at ht
  cases hidx : tags.findIdx? (fun t => strLt last t) with
  | none =>
    exfalso
    obtain ⟨x, hx, hlt⟩ := hex
    have hall := List.findIdx?_eq_none_iff.mp hidx x hx
    rw [hlt] at hall
    cases hall
  | some i =>
    simp only [hidx] at ht
    obtain ⟨hilen, hpi, -⟩ := List.findIdx?_eq_some_iff_getElem.mp hidx
    have hgt : strLt last tags[i] = true := hpi
    rw [List.drop_eq_getElem_cons hilen] at ht
    rcases List.mem_cons.mp ht with rfl | hmem
    · exact hgt
    · have hsd := List.Pairwise.sublist (List.drop_sublist i tags) hs
      rw [List.drop_eq_getElem_cons hilen, List.pairwise_cons] at hsd
      exact strLt_of_strLt_of_strLe hgt (hsd.1 t hmem)

/-- When no tag exceeds `last`, the loop never fires and the list is kept
whole. -/
theorem lastFilter_of_none {tags : List String} {last : String}
    (h : ∀ x ∈ tags, ¬ strLt last x = true) : lastFilter tags last = tags := by
  unfold lastFilter
  have hidx : tags.findIdx? (fun t => strLt last t) = none := by
    rw [List.findIdx?_eq_none_iff]
    intro x hx
    have := h x hx
    revert this
    cases strLt last x <;> simp
  rw [hidx]

/-- C6 fails on the code: with tags `["1.0"]` and `last=2.0` no tag
exceeds `last`, the offset loop never breaks, and the full list is
served, so the response contains a tag that is not greater than `last`. -/
theorem tags_last_bound_counterexample :
    handleTags ["chart"] [] (some ⟨[("chart", ["1.0"])]⟩) "2.0" "" =
      .ok "chart" ["1.0"] ∧ strLt "2.0" "1.0" = false := by
  constructor
  · rfl
  · rfl

/-- Limit `n=0` always yields an empty tag list. -/
theorem nLimitStage_zero (f : String) (tags : List String) :
    nLimitStage f tags "0" = .ok f [] := by
  unfold nLimitStage
  rw [if_pos (show ("0" : String) ≠ "" by decide), show atoi "0" = some 0 from rfl]
  dsimp only
  by_cases h : (0 : Int) < (tags.length : Int)
  · rw [if_pos h]
    unfold goSliceTo
    rw [if_pos ⟨le_refl 0, by exact_mod_cast Nat.zero_le _⟩]
    simp
  · rw [if_neg h]
    have h0 : tags = [] := by
      have hle := not_lt.mp h
      have hz : (tags.length : Int) = 0 := le_antisymm hle (by positivity)
      exact List.length_eq_zero.mp (by exact_mod_cast hz)
    rw [h0]

/-- A served tag list is a subset of the pre-truncation tags. -/
theorem nLimitStage_ok_sub {f name : String} {tags ts : List String} {nQ : String}
    (hok : nLimitStage f tags nQ = .ok name ts) : ∀ t ∈ ts, t ∈ tags := by
  unfold nLimitStage at hok
  split at hok
  · split at hok
    · cases hok
    · split at hok
      · split at hok
        · rename_i tlist heq
          injection hok with h1 h2
          subst h2
          unfold goSliceTo at heq
          split at heq
          · injection heq with h3
            subst h3
            intro t ht
            exact List.mem_of_mem_take ht
          · cases heq
        · cases hok
      · injection hok with h1 h2
        subst h2
        intro t ht
        exact ht
  · injection hok with h1 h2
    subst h2
    intro t ht
    exact ht

/-- A parsed non-negative `n` bounds the number of served tags. -/
theorem nLimitStage_len {f name : String} {tags ts : List String} {nQ : String} {k : Int}
    (hok : nLimitStage f tags nQ = .ok name ts) (hatoi : atoi nQ = some k) (hk : 0 ≤ k) :
    (ts.length : Int) ≤ k := by
  have hn : nQ ≠ "" := fun he => by rw [he] at hatoi; cases hatoi
  unfold nLimitStage at hok
  rw [if_pos hn, hatoi] at hok
  dsimp only at hok
  split at hok
  · split at hok
    · rename_i tlist heq
      injection hok with h1 h2
      subst h2
      unfold goSliceTo at heq
      split at heq
      · injection heq with h3
        subst h3
        have hl := List.length_take_le k.toNat tags
        omega
      · cases heq
    · cases hok
  · rename_i hnlt
    injection hok with h1 h2
    subst h2
    omega

/-- Without an `n` parameter the pre-truncation tags are served whole. -/
theorem nLimitStage_no_n (f : String) (tags : List String) :
    nLimitStage f tags "" = .ok f tags := rfl

/-- A negative parsed `n` over a non-empty tag list panics (`tags[:n]`
with negative `n`). -/
theorem nLimitStage_panic {f : String} {tags : List String} {nQ : String} {k : Int}
    (hatoi : atoi nQ = some k) (hneg : k < 0) (hne : tags ≠ []) :
    nLimitStage f tags nQ = .panic := by
  have hn : nQ ≠ "" := fun he => by rw [he] at hatoi; cases hatoi
  have hlen : 0 < tags.length := List.length_pos.mpr hne
  unfold nLimitStage
  rw [if_pos hn, hatoi]
  dsimp only
  rw [if_pos (show k < (tags.length : Int) by omega)]
  unfold goSliceTo
  rw [if_neg (by omega)]

/-- An unparsable `n` is rejected with 400 BAD_REQUEST. -/
theorem nLimitStage_err {f : String} {tags : List String} {nQ : String}
    (hatoi : atoi nQ = none) (hn : nQ ≠ "") :
    nLimitStage f tags nQ = .err ⟨400, "BAD_REQUEST", "parsing n"⟩ := by
  unfold nLimitStage
  rw [if_pos hn, hatoi]

/-- C6, amended: the computed tag list is sorted ascending; `n=0` always
yields an empty tag list; when at least one tag exceeds `last`, `last` is
an exclusive lower bound of the served tags; when no tag exceeds `last`,
the full sorted list is served unfiltered; a non-negative `n` bounds the
number of served tags. -/
theorem handleTags_pagination (repoParts : List String) (c : RepoMap)
    (index : Option IndexModel) (lastQ nQ : String) (k : Int) :
    (List.Pairwise (fun a b => strLe a b = true) (tagsComputed repoParts c index)) ∧
    (handleTags repoParts c index lastQ "0" =
      .ok (String.intercalate "/" repoParts) []) ∧
    (∀ name ts, handleTags repoParts c index lastQ nQ = .ok name ts →
      lastQ ≠ "" → (∃ x ∈ tagsComputed repoParts c index, strLt lastQ x = true) →
      ∀ t ∈ ts, strLt lastQ t = true) ∧
    (∀ name ts, handleTags repoParts c index lastQ "" = .ok name ts →
      (∀ x ∈ tagsComputed repoParts c index, ¬ strLt lastQ x = true) →
      ts = tagsComputed repoParts c index) ∧
    (∀ name ts, handleTags repoParts c index lastQ nQ = .ok name ts →
      atoi nQ = some k → 0 ≤ k → (ts.length : Int) ≤ k) := by
  have hsorted : List.Pairwise (fun a b => strLe a b = true) (tagsComputed repoParts c index) := by
    unfold tagsComputed
    apply sortStrings_pairwise
  have hbl : ∀ lq, tagsBeforeLimit repoParts c index lq =
      (if lq ≠ "" then lastFilter (tagsComputed repoParts c index) lq
       else tagsComputed repoParts c index) := fun lq => rfl
  refine ⟨hsorted, ?_, ?_, ?_, ?_⟩
  · exact nLimitStage_zero _ _
  · intro name ts hok hlast hex
    intro t ht
    have hmem := nLimitStage_ok_sub hok t ht
    rw [hbl lastQ, if_pos hlast] at hmem
    exact lastFilter_all_gt hsorted hex t hmem
  · intro name ts hok hnone
    unfold handleTags at hok
    rw [nLimitStage_no_n] at hok
    injection hok with h1 h2
    subst h2
    rw [hbl lastQ]
    by_cases hlast : lastQ ≠ ""
    · rw [if_pos hlast]
      exact lastFilter_of_none hnone
    · rw [if_neg hlast]
  · intro name ts hok hatoi hk
    exact nLimitStage_len hok hatoi hk

/-- Witness for the amended C6 at concrete inputs. -/
theorem handleTags_pagination_witness :
    handleTags ["chart"] [] (some ⟨[("chart", ["1.0", "3.0"])]⟩) "" "0" =
      .ok "chart" [] ∧
    (∀ t ∈ ["3.0"], strLt "2.0" t = true) ∧
    ((["3.0"] : List String).length : Int) ≤ 1 := by
  have h := handleTags_pagination ["chart"] [] (some ⟨[("chart", ["1.0", "3.0"])]⟩) "2.0" "1" 1
  have h0 := handleTags_pagination ["chart"] [] (some ⟨[("chart", ["1.0", "3.0"])]⟩) "" "" 0
  refine ⟨h0.2.1, ?_, ?_⟩
  · exact h.2.2.1 "chart" ["3.0"] (by rfl) (by decide) ⟨"3.0", by decide, by rfl⟩
  · exact h.2.2.2.2 "chart" ["3.0"] (by rfl) (by rfl) (by decide)

/-- C10: in the tags handler only an unparsable `n` is rejected (400
BAD_REQUEST); an `n` that parses negative is accepted, and whenever the
computed tag list is non-empty the truncation `tags[:n]` indexes out of
bounds and the handler panics instead of responding. -/
theorem tags_negative_n (repoParts : List String) (c : RepoMap) (index : Option IndexModel)
    (lastQ nQ : String) (k : Int) :
    (atoi nQ = none → nQ ≠ "" →
      handleTags repoParts c index lastQ nQ = .err ⟨400, "BAD_REQUEST", "parsing n"⟩) ∧
    (atoi nQ = some k → k < 0 → tagsBeforeLimit repoParts c index lastQ ≠ [] →
      handleTags repoParts c index lastQ nQ = .panic) := by
  constructor
  · intro h1 h2
    unfold handleTags
    exact nLimitStage_err h1 h2
  · intro h1 h2 h3
    unfold handleTags
    exact nLimitStage_panic h1 h2 h3

/-- Witness for C10 at concrete inputs. -/
theorem tags_negative_n_witness :
    handleTags ["chart"] [] (some ⟨[("chart", ["1.0"])]⟩) "" "x" =
      .err ⟨400, "BAD_REQUEST", "parsing n"⟩ ∧
    handleTags ["chart"] [] (some ⟨[("chart", ["1.0"])]⟩) "" "-1" = .panic := by
  constructor
  · exact (tags_negative_n ["chart"] [] (some ⟨[("chart", ["1.0"])]⟩) "" "x" 0).1
      rfl (by decide)
  · exact (tags_negative_n ["chart"] [] (some ⟨[("chart", ["1.0"])]⟩) "" "-1" (-1)).2
      rfl (by decide) (by decide)

/-- C8 fails on the code: the catalog handler wraps a failed `n` parse in
`RegErrInternal`, answering 500 INTERNAL_SERVER_ERROR rather than the
claimed 400 BAD_REQUEST. -/
theorem catalog_bad_n_counterexample :
    handleCatalog ["v2", "_catalog"] "x" true [] none =
      .error (regErrInternal "parsing n") ∧
    (regErrInternal "parsing n").status = 500 ∧
    (regErrInternal "parsing n").code = "INTERNAL_SERVER_ERROR" :=
  ⟨rfl, rfl, rfl⟩

/-- C8, amended: a pagination parameter `n` that does not parse as an
integer makes the tags handler answer 400 BAD_REQUEST, but makes the
catalog handler answer 500 INTERNAL_SERVER_ERROR. -/
theorem pagination_bad_n (repoParts : List String) (c : RepoMap) (index : Option IndexModel)
    (lastQ nQ : String) (elems : List String) (methodGet : Bool) (local_ : List String) :
    (atoi nQ = none → nQ ≠ "" →
      handleTags repoParts c index lastQ nQ = .err ⟨400, "BAD_REQUEST", "parsing n"⟩) ∧
    (atoi nQ = none → nQ ≠ "" →
      handleCatalog elems nQ methodGet local_ index = .error (regErrInternal "parsing n")) := by
  constructor
  · intro h1 h2
    unfold handleTags
    exact nLimitStage_err h1 h2
  · intro h1 h2
    unfold handleCatalog
    rw [if_pos h2, h1]

/-- Witness for the amended C8 at concrete inputs. -/
theorem pagination_bad_n_witness :
    handleTags ["chart"] [] none "" "abc" = .err ⟨400, "BAD_REQUEST", "parsing n"⟩ ∧
    handleCatalog ["v2", "_catalog"] "abc" true [] none =
      .error (regErrInternal "parsing n") := by
  have h := pagination_bad_n ["chart"] [] none "" "abc" ["v2", "_catalog"] true []
  exact ⟨h.1 rfl (by decide), h.2 rfl (by decide)⟩

/-- C9: on GET/HEAD blob requests over the in-memory store, a malformed
digest answers 400 NAME_INVALID, a well-formed but absent digest answers
404 with the BLOB_UNKNOWN body, and every failing lookup is one of those
two errors. -/
theorem blobs_error_cases (method path target : String) (repoSegs : List String)
    (store : MemStore)
    (hm : method = "GET" ∨ method = "HEAD")
    (hshape : goSplit '/' path = "" :: "v2" :: (repoSegs ++ ["blobs", target]))
    (hrs : repoSegs ≠ [])
    (ht : target ≠ "") :
    (newHash target = none → blobsHandle method path store = .error regErrInvalidDigest) ∧
    (regErrInvalidDigest.status = 400 ∧ regErrInvalidDigest.code = "NAME_INVALID") ∧
    (∀ h, newHash target = some h → lookupList store (hashString h) = none →
      blobsHandle method path store = .error regErrBlobUnknown) ∧
    (regErrBlobUnknown.status = 404 ∧
      regErrorBody regErrBlobUnknown =
        "\x7b\"errors\":[\x7b\"code\":\"BLOB_UNKNOWN\",\"message\":\"Unknown Blob\"\x7d]\x7d") ∧
    (∀ e, blobsHandle method path store = .error e →
      e = regErrInvalidDigest ∨ e = regErrBlobUnknown) := by
  have helem0 : (goSplit '/' path).drop 1 = "v2" :: (repoSegs ++ ["blobs", target]) := by
    rw [hshape]
    rfl
  have hlast : ("v2" :: (repoSegs ++ ["blobs", target])).getLastD "" = target := by
    have he : ("v2" :: (repoSegs ++ ["blobs", target]))
        = (("v2" :: repoSegs) ++ ["blobs"]) ++ [target] := by simp
    rw [he, List.getLastD_concat]
  have hlen : ¬ ("v2" :: (repoSegs ++ ["blobs", target])).length < 4 := by
    cases repoSegs with
    | nil => exact absurd rfl hrs
    | cons a as => simp
  have hbh : blobsHandle method path store =
      (if method = "HEAD" then
        match newHash target with
        | none => .error regErrInvalidDigest
        | some h =>
          match memStat store h with
          | none => .error regErrBlobUnknown
          | some size => .ok ⟨size, hashString h, none⟩
      else if method = "GET" then
        match newHash target with
        | none => .error regErrInvalidDigest
        | some h =>
          match memStat store h with
          | none => .error regErrBlobUnknown
          | some size =>
            match memGet store h with
            | none => .error regErrBlobUnknown
            | some bytes => .ok ⟨size, hashString h, some bytes⟩
      else .error ⟨400, "METHOD_UNKNOWN", "We don't understand your method + url"⟩) := by
    unfold blobsHandle
    rw [helem0]
    dsimp only
    rw [hlast, if_neg ht, if_neg hlen, hlast]
  refine ⟨?_, ⟨rfl, rfl⟩, ?_, ⟨rfl, rfl⟩, ?_⟩
  · intro hnone
    rcases hm with rfl | rfl <;> simp [hbh, hnone]
  · intro h hsome hlook
    have hstat : memStat store h = none := by
      unfold memStat
      rw [hlook]
      rfl
    rcases hm with rfl | rfl <;> simp [hbh, hsome, hstat]
  · intro e he
    rw [hbh] at he
    rcases hm with rfl | rfl
    · rw [if_neg (by decide), if_pos rfl] at he
      split at he
      · injection he with h1
        exact Or.inl h1.symm
      · split at he
        · injection he with h1
          exact Or.inr h1.symm
        · split at he
          · injection he with h1
            exact Or.inr h1.symm
          · cases he
    · rw [if_pos rfl] at he
      split at he
      · injection he with h1
        exact Or.inl h1.symm
      · split at he
        · injection he with h1
          exact Or.inr h1.symm
        · cases he

/-- Witness for C9 at concrete inputs. -/
theorem blobs_error_cases_witness :
    blobsHandle "GET" "/v2/repo/blobs/bad" [] = .error regErrInvalidDigest ∧
    blobsHandle "HEAD"
        "/v2/repo/blobs/sha256:0000000000000000000000000000000000000000000000000000000000000000"
        [] = .error regErrBlobUnknown := by
  constructor
  · exact (blobs_error_cases "GET" "/v2/repo/blobs/bad" "bad" ["repo"] []
      (Or.inl rfl) (by decide) (by decide) (by decide)).1 rfl
  · exact (blobs_error_cases "HEAD"
      "/v2/repo/blobs/sha256:0000000000000000000000000000000000000000000000000000000000000000"
      "sha256:0000000000000000000000000000000000000000000000000000000000000000" ["repo"] []
      (Or.inr rfl) (by decide) (by decide) (by decide)).2.2.1
      ("sha256", "0000000000000000000000000000000000000000000000000000000000000000")
      (by decide) rfl

/-- A well-formed shared digest used in the C1 scenario. -/
def sharedDigest : String :=
  "sha256:0000000000000000000000000000000000000000000000000000000000000000"

/-- C1 fails on the code: two manifest records in different repositories
share a blob digest; when the older one is evicted, its refs are deleted
from the Blob Store without reference counting, leaving the surviving
record with a dangling ref. -/
theorem store_invariant_counterexample :
    storeInvB (runOps 60
      [.prepare "a/x" sharedDigest "1.0" ⟨"m", [], [sharedDigest], 0⟩,
       .prepare "b/y" sharedDigest "1.0" ⟨"m", [], [sharedDigest], 999⟩,
       .evict 1000]) = false ∧
    (runOps 60
      [.prepare "a/x" sharedDigest "1.0" ⟨"m", [], [sharedDigest], 0⟩,
       .prepare "b/y" sharedDigest "1.0" ⟨"m", [], [sharedDigest], 999⟩,
       .evict 1000]).manifests ≠ [] := by
  constructor
  · decide
  · decide

/-- Compatibility of two records: either they are copies from the same
preparation (same refs, same creation instant) or their refs are
disjoint. -/
def RecsCompat (r1 r2 : ManifestRec) : Prop :=
  (r1.refs = r2.refs ∧ r1.createdAt = r2.createdAt) ∨ ∀ d ∈ r1.refs, d ∉ r2.refs

/-- Records carried by the prepare operations of a schedule. -/
def prepRecs (ops : List StoreOp) : List ManifestRec :=
  ops.filterMap fun o =>
    match o with
    | .prepare _ _ _ rec => some rec
    | .evict _ => none

/-- The §8 invariant as a proposition. -/
def StoreInv (st : StoreState) : Prop :=
  ∀ e ∈ st.manifests, ∀ d ∈ e.mrec.refs, d ∈ st.blobs

/-- All records present in the store are pairwise compatible. -/
def StateCompat (st : StoreState) : Prop :=
  ∀ e1 ∈ st.manifests, ∀ e2 ∈ st.manifests, RecsCompat e1.mrec e2.mrec

/-- All records present are compatible with every record yet to be
prepared. -/
def FutureCompat (st : StoreState) (rs : List ManifestRec) : Prop :=
  ∀ e ∈ st.manifests, ∀ r ∈ rs, RecsCompat e.mrec r

/-- Compatibility is symmetric. -/
theorem RecsCompat.symm {r1 r2 : ManifestRec} (h : RecsCompat r1 r2) : RecsCompat r2 r1 := by
  rcases h with ⟨h1, h2⟩ | h
  · exact Or.inl ⟨h1.symm, h2.symm⟩
  · right
    intro d hd hmem
    exact h d hmem hd

/-- Membership in the blob store after the prepare-time puts. -/
theorem mem_putBlobs (refs : List String) : ∀ (st : StoreState) (d : String),
    d ∈ (refs.foldl (fun s r => putBlob r s) st).blobs ↔ d ∈ refs ∨ d ∈ st.blobs := by
  induction refs with
  | nil => simp
  | cons r rs ih =>
    intro st d
    rw [List.foldl_cons, ih]
    unfold putBlob
    by_cases h : r ∈ st.blobs
    · rw [if_pos h]
      constructor
      · rintro (hd | hd)
        · exact Or.inl (List.mem_cons_of_mem r hd)
        · exact Or.inr hd
      · rintro (hd | hd)
        · rcases List.mem_cons.mp hd with rfl | hd2
          · exact Or.inr h
          · exact Or.inl hd2
        · exact Or.inr hd
    · rw [if_neg h]
      constructor
      · rintro (hd | hd)
        · exact Or.inl (List.mem_cons_of_mem r hd)
        · rcases List.mem_cons.mp hd with rfl | hd2
          · exact Or.inl (List.mem_cons_self _ _)
          · exact Or.inr hd2
      · rintro (hd | hd)
        · rcases List.mem_cons.mp hd with rfl | hd2
          · exact Or.inr (List.mem_cons_self _ _)
          · exact Or.inl hd2
        · exact Or.inr (List.mem_cons_of_mem r hd)

/-- The prepare-time puts do not change the manifest map. -/
theorem putBlobs_manifests (refs : List String) : ∀ (st : StoreState),
    (refs.foldl (fun s r => putBlob r s) st).manifests = st.manifests := by
  induction refs with
  | nil => intro st; rfl
  | cons r rs ih =>
    intro st
    rw [List.foldl_cons, ih]
    rfl

/-- Entries after a manifest write. -/
theorem mem_writeManifest {e : StoreEntry} {repo name : String} {rec : ManifestRec}
    {st : StoreState} (h : e ∈ (writeManifest repo name rec st).manifests) :
    e = ⟨repo, name, rec⟩ ∨ e ∈ st.manifests := by
  unfold writeManifest at h
  rcases List.mem_cons.mp h with rfl | h2
  · exact Or.inl rfl
  · exact Or.inr (List.mem_of_mem_filter h2)

/-- A manifest write leaves the blob store unchanged. -/
theorem writeManifest_blobs (repo name : String) (rec : ManifestRec) (st : StoreState) :
    (writeManifest repo name rec st).blobs = st.blobs := rfl

/-- Compatibility is decidable. -/
instance recsCompatDecidable : DecidableRel RecsCompat := fun r1 r2 => by
  unfold RecsCompat
  infer_instance

/-- One prepare step preserves the invariant bundle. -/
theorem prepare_step (ttl : Int) (st : StoreState) (repo dk tk : String) (rec : ManifestRec)
    (rest : List ManifestRec)
    (h1 : StoreInv st) (h2 : StateCompat st) (h3 : FutureCompat st (rec :: rest))
    (h4 : ∀ r ∈ rest, RecsCompat rec r) :
    StoreInv (applyOp ttl st (.prepare repo dk tk rec)) ∧
    StateCompat (applyOp ttl st (.prepare repo dk tk rec)) ∧
    FutureCompat (applyOp ttl st (.prepare repo dk tk rec)) rest := by
  have hmem_entries : ∀ e, e ∈ (applyOp ttl st (.prepare repo dk tk rec)).manifests →
      e.mrec = rec ∨ e ∈ st.manifests := by
    intro e he
    unfold applyOp at he
    rcases mem_writeManifest he with rfl | he2
    · exact Or.inl rfl
    rcases mem_writeManifest he2 with rfl | he3
    · exact Or.inl rfl
    · rw [putBlobs_manifests] at he3
      exact Or.inr he3
  have hblobs : (applyOp ttl st (.prepare repo dk tk rec)).blobs =
      (rec.refs.foldl (fun s r => putBlob r s) st).blobs := by
    unfold applyOp
    rw [writeManifest_blobs, writeManifest_blobs]
  refine ⟨?_, ?_, ?_⟩
  · intro e he d hd
    rw [hblobs]
    rcases hmem_entries e he with hrec | hold
    · rw [hrec] at hd
      exact (mem_putBlobs rec.refs st d).mpr (Or.inl hd)
    · exact (mem_putBlobs rec.refs st d).mpr (Or.inr (h1 e hold d hd))
  · intro e1 he1 e2 he2
    rcases hmem_entries e1 he1 with hr1 | ho1 <;> rcases hmem_entries e2 he2 with hr2 | ho2
    · rw [hr1, hr2]
      exact Or.inl ⟨rfl, rfl⟩
    · rw [hr1]
      exact (h3 e2 ho2 rec (List.mem_cons_self _ _)).symm
    · rw [hr2]
      exact h3 e1 ho1 rec (List.mem_cons_self _ _)
    · exact h2 e1 ho1 e2 ho2
  · intro e he r hr
    rcases hmem_entries e he with hr1 | ho
    · rw [hr1]
      exact h4 r hr
    · exact h3 e ho r (List.mem_cons_of_mem _ hr)

/-- One eviction tick preserves the invariant bundle: a surviving record
cannot lose a blob, because any expired record either has disjoint refs
or shares its creation instant (and would then survive too). -/
theorem evict_step (ttl now : Int) (st : StoreState) (rest : List ManifestRec)
    (h1 : StoreInv st) (h2 : StateCompat st) (h3 : FutureCompat st rest) :
    StoreInv (applyOp ttl st (.evict now)) ∧
    StateCompat (applyOp ttl st (.evict now)) ∧
    FutureCompat (applyOp ttl st (.evict now)) rest := by
  have hmans : ∀ e, e ∈ (applyOp ttl st (.evict now)).manifests →
      e ∈ st.manifests ∧ expiredAt ttl now e = false := by
    intro e he
    unfold applyOp at he
    simp only [List.mem_filter, decide_eq_true_eq, Bool.not_eq_true] at he
    exact he
  refine ⟨?_, ?_, ?_⟩
  · intro e he d hd
    obtain ⟨hmem, hexp⟩ := hmans e he
    have hdb : d ∈ st.blobs := h1 e hmem d hd
    show d ∈ (applyOp ttl st (.evict now)).blobs
    unfold applyOp
    dsimp only
    rw [List.mem_filter]
    refine ⟨hdb, ?_⟩
    simp only [decide_eq_true_eq, Bool.not_eq_true, List.any_eq_false]
    intro e2 he2
    rw [List.mem_filter] at he2
    obtain ⟨hmem2, hexp2⟩ := he2
    intro hdel
    have hd2 : d ∈ e2.mrec.refs := List.mem_of_mem_filter hdel
    rcases h2 e hmem e2 hmem2 with ⟨hrefs, hcreated⟩ | hdisj
    · have : expiredAt ttl now e2 = expiredAt ttl now e := by
        unfold expiredAt
        rw [hcreated]
      rw [this, hexp] at hexp2
      cases hexp2
    · exact hdisj d hd hd2
  · intro e1 he1 e2 he2
    exact h2 e1 (hmans e1 he1).1 e2 (hmans e2 he2).1
  · intro e he r hr
    exact h3 e (hmans e he).1 r hr

/-- The invariant bundle holds after any schedule whose prepared records
are pairwise compatible. -/
theorem run_preserves (ttl : Int) : ∀ (ops : List StoreOp) (st : StoreState),
    StoreInv st → StateCompat st → FutureCompat st (prepRecs ops) →
    List.Pairwise RecsCompat (prepRecs ops) →
    StoreInv (ops.foldl (applyOp ttl) st) := by
  intro ops
  induction ops with
  | nil =>
    intro st h1 _ _ _
    exact h1
  | cons op rest ih =>
    intro st h1 h2 h3 h4
    rw [List.foldl_cons]
    cases op with
    | prepare repo dk tk rec =>
      have hpr : prepRecs (.prepare repo dk tk rec :: rest) = rec :: prepRecs rest := by
        simp [prepRecs]
      rw [hpr] at h3 h4
      rw [List.pairwise_cons] at h4
      obtain ⟨hhead, htail⟩ := h4
      obtain ⟨a1, a2, a3⟩ := prepare_step ttl st repo dk tk rec (prepRecs rest) h1 h2 h3 hhead
      exact ih _ a1 a2 a3 htail
    | evict now =>
      have hpr : prepRecs (.evict now :: rest) = prepRecs rest := by
        simp [prepRecs]
      rw [hpr] at h3 h4
      obtain ⟨a1, a2, a3⟩ := evict_step ttl now st (prepRecs rest) h1 h2 h3
      exact ih _ a1 a2 a3 h4

/-- C1, amended: after any interleaving of chart preparations and
eviction ticks in which no two prepared manifest records share a blob
digest (records written under their digest and tag key by the same
preparation excepted), every digest in the refs of every record present
in the Manifest Store can be fetched from the Blob Store.  The unamended
claim fails when an evicted record shares a digest with a survivor (see
the counterexample). -/
theorem store_invariant_amended (ttl : Int) (ops : List StoreOp)
    (h : List.Pairwise RecsCompat (prepRecs ops)) :
    storeInvB (runOps ttl ops) = true := by
  have hinv : StoreInv (runOps ttl ops) := by
    unfold runOps
    apply run_preserves ttl ops ⟨[], []⟩ ?_ ?_ ?_ h
    · intro e he
      cases he
    · intro e he
      cases he
    · intro e he
      cases he
  unfold storeInvB
  rw [List.all_eq_true]
  intro e he
  rw [List.all_eq_true]
  intro d hd
  have hmem := hinv e he d hd
  simpa [List.elem_iff] using hmem

/-- Witness for the amended C1: two preparations with disjoint refs and
an eviction that removes the older one. -/
theorem store_invariant_amended_witness :
    storeInvB (runOps 60
      [.prepare "a/x" "k1" "1.0" ⟨"m", [], ["sha256:aa"], 0⟩,
       .prepare "b/y" "k2" "1.0" ⟨"m", [], ["sha256:bb"], 999⟩,
       .evict 1000]) = true :=
  store_invariant_amended 60 _ (by decide)

end HelmProxy
